import Mathlib

/-!
Shallow embedding of the inkspect document-scanning pipeline
(`script/backend/app` plus the offline tools `evaluate_selected.py` and
`qr_detect.py`), together with theorems settling the specification claims
about the job state machine, pipeline orchestration, QR candidate filter,
signature/stamp overlap suppression, review classification, heatmap
accumulation and the greedy evaluation matcher.

Python floats are modelled with exact rationals (`ℚ`); the heatmap's
transcendental Gaussian values are modelled with real numbers (`ℝ`).
Machine integers in the sources are plain Python ints, so `ℤ`/`ℕ` are used
directly.
-/

set_option maxHeartbeats 1000000

/-! ### Job model — `app/models/job.py` -/

/-- `JobStatus` enum from `app/models/job.py`. -/
inductive JobStatus where
  | pending
  | running
  | completed
  | failed
deriving DecidableEq, Repr

/-- `DetectionRecord` from `app/models/job.py` (also stands in for the
detector service's `DetectionBox`, which carries the same
label/confidence/bbox payload). `bbox = (x1, y1, x2, y2)` in pixels. -/
structure DetectionBox where
  label : String
  confidence : ℚ
  bbox : ℤ × ℤ × ℤ × ℤ
deriving DecidableEq, Repr

/-- A QR quad: exactly 4 ordered integer points, as produced by both QR
reading engines (`QRDetection.polygon` in `app/services/qr_detector.py`). -/
structure Quad where
  p0 : ℤ × ℤ
  p1 : ℤ × ℤ
  p2 : ℤ × ℤ
  p3 : ℤ × ℤ
deriving DecidableEq, Repr

/-- `QRDetection` from `app/services/qr_detector.py`: decoded text plus
its quad. -/
structure QRDetectionRec where
  text : String
  polygon : Quad
deriving DecidableEq, Repr

/-- `QRRecord` from `app/models/job.py`. -/
structure QRRecord where
  text : String
  polygon : Quad
deriving DecidableEq, Repr

/-- `PageResult` from `app/models/job.py` (artifact paths dropped:
file-system handles are out of scope). -/
structure PageResult where
  page_name : String
  detections : List DetectionBox
  qr_codes : List QRRecord
  requires_review : Bool
deriving DecidableEq, Repr

/-- The per-category counters of `JobResult.summary`
(`{"signature": 0, "stamp": 0, "qr": 0}`). -/
structure Summary where
  signature : ℕ
  stamp : ℕ
  qr : ℕ
deriving DecidableEq, Repr

/-- `JobResult` from `app/models/job.py`; `datetime` stamps are modelled as
abstract `ℕ` ticks, `created_at` and `source_files` dropped (not involved
in any claim). -/
structure JobResult where
  job_id : String
  status : JobStatus
  pages : List PageResult
  summary : Summary
  completedAt : Option ℕ
  error : Option String
deriving DecidableEq, Repr

/-! ### JobManager transitions — `app/services/job_manager.py`

Each `mark_*` method looks the job up in the registry and mutates it under
the lock; here the registry and lock are abstracted away and each
transition acts on the job record itself.  Note that none of the three
methods inspects the current status before writing. -/

/-- `JobManager.mark_running`: unconditionally sets `status = running`. -/
def markRunning (j : JobResult) : JobResult :=
  { j with status := JobStatus.running }

/-- `JobManager.mark_completed`: unconditionally sets `status = completed`
and stamps `completed_at` with the current time `t`. -/
def markCompleted (j : JobResult) (t : ℕ) : JobResult :=
  { j with status := JobStatus.completed, completedAt := some t }

/-- `JobManager.mark_failed`: unconditionally sets `status = failed`,
records the error message, and stamps `completed_at` with `t`. -/
def markFailed (j : JobResult) (e : String) (t : ℕ) : JobResult :=
  { j with status := JobStatus.failed, error := some e, completedAt := some t }

/-! ### Pipeline orchestration — `app/services/pipeline.py::process_job`

The per-page body of the loop (detector call, filters, annotation,
heatmap) is abstracted as a step function: `skip` models
`cv2.imread(...) is None → continue`, `ok r` a fully processed page, and
`err e` an unhandled exception raised while processing that page. -/

/-- Outcome of processing one page inside `process_job`'s loop. -/
inductive PageStep where
  | skip
  | ok (r : PageResult)
  | err (e : String)

/-- The `for page_path in page_images` loop of `process_job`: accumulates
successfully processed pages into the local `page_results` list, stopping
with the exception if a page raises. -/
def processPages {α : Type} (step : α → PageStep) :
    List α → List PageResult → Except String (List PageResult)
  | [], acc => Except.ok acc
  | p :: rest, acc =>
      match step p with
      | PageStep.skip => processPages step rest acc
      | PageStep.ok r => processPages step rest (acc ++ [r])
      | PageStep.err e => Except.error e

/-- The summary-count accumulation inside `process_job`'s loop:
`summary_counts[det.label] += 1` for labels present in the dict, then
`summary_counts["qr"] += len(qr_hits)`. -/
def addPageCounts (c : Summary) (dets : List DetectionBox) (qrs : List QRRecord) :
    Summary :=
  { signature := c.signature + (dets.filter (fun d => d.label == "signature")).length,
    stamp := c.stamp + (dets.filter (fun d => d.label == "stamp")).length,
    qr := c.qr + (dets.filter (fun d => d.label == "qr")).length + qrs.length }

/-- Total summary over the accumulated page results (equal to the running
`summary_counts` dict at the end of the loop). -/
def summarize (pages : List PageResult) : Summary :=
  pages.foldl (fun c p => addPageCounts c p.detections p.qr_codes) ⟨0, 0, 0⟩

/-- `process_job`: mark running, run the page loop; on success assign
`job.pages`/`job.summary` and mark completed, on an exception mark failed
(leaving `job.pages` and `job.summary` untouched) and re-raise.  `tEnd`
is the wall-clock instant of the terminal transition. -/
def processJob {α : Type} (j : JobResult) (pages : List α)
    (step : α → PageStep) (tEnd : ℕ) : JobResult :=
  let j1 := markRunning j
  match processPages step pages [] with
  | Except.ok results =>
      markCompleted { j1 with pages := results, summary := summarize results } tEnd
  | Except.error e => markFailed j1 e tEnd

/-! ### Fixtures for counterexamples and witnesses -/

/-- A freshly created job record (`status=pending`, empty pages, zero
summary, no completion stamp), as `routes.py` stores it before processing. -/
def job0 : JobResult :=
  { job_id := "job0", status := JobStatus.pending, pages := [],
    summary := ⟨0, 0, 0⟩, completedAt := none, error := none }

/-- A concrete fully-processed page result. -/
def page1 : PageResult :=
  { page_name := "page_001.jpg",
    detections := [⟨"signature", 9/10, (0, 0, 10, 10)⟩],
    qr_codes := [], requires_review := false }

/-- A step function that fully processes page 0 and raises on any other
page. -/
def stepFailSecond : ℕ → PageStep :=
  fun n => if n = 0 then PageStep.ok page1 else PageStep.err "boom"

/-! ### C1 / C2 theorems -/

/-- C1 counterexample: the `JobManager` transition methods never inspect
the current status, so a terminal state is not sticky.  Concretely,
`mark_running` after `mark_completed` moves the job back to `running`,
and a second `mark_completed` overwrites `completed_at` — refuting
"once the job's status is completed or failed, no further transition is
accepted … completed_at is set exactly once". -/
theorem jobManager_terminal_transition_accepted_cex :
    (markRunning (markCompleted job0 1)).status = JobStatus.running ∧
    (markCompleted (markCompleted job0 1) 2).completedAt = some 2 ∧
    (markCompleted (markCompleted job0 1) 2).completedAt ≠ some 1 := by
  refine ⟨rfl, rfl, ?_⟩
  simp [markCompleted, job0]

/-- C1 (amended): the store itself accepts any transition in any state,
but along the only transition sequence the pipeline issues —
`mark_running` followed by exactly one terminal transition — the status
is monotonic pending→running→{completed, failed} and `completed_at`,
`none` before the terminal transition, is written exactly once, at it. -/
theorem processJob_transitions_monotonic {α : Type} (j : JobResult)
    (pages : List α) (step : α → PageStep) (tEnd : ℕ)
    (h : j.completedAt = none) :
    ((processJob j pages step tEnd).status = JobStatus.completed ∨
      (processJob j pages step tEnd).status = JobStatus.failed) ∧
    (processJob j pages step tEnd).completedAt = some tEnd ∧
    (markRunning j).status = JobStatus.running ∧
    (markRunning j).completedAt = none := by
  refine ⟨?_, ?_, rfl, by simpa [markRunning] using h⟩
  · unfold processJob
    cases processPages step pages [] with
    | ok results => exact Or.inl rfl
    | error e => exact Or.inr rfl
  · unfold processJob
    cases processPages step pages [] with
    | ok results => rfl
    | error e => rfl

/-- Witness for `processJob_transitions_monotonic` at a concrete job and
page list. -/
theorem processJob_transitions_monotonic_witness :
    job0.completedAt = none ∧
    (((processJob job0 [0] stepFailSecond 3).status = JobStatus.completed ∨
        (processJob job0 [0] stepFailSecond 3).status = JobStatus.failed) ∧
      (processJob job0 [0] stepFailSecond 3).completedAt = some 3 ∧
      (markRunning job0).status = JobStatus.running ∧
      (markRunning job0).completedAt = none) :=
  ⟨rfl, processJob_transitions_monotonic job0 [0] stepFailSecond 3 rfl⟩

/-- C2 counterexample: with two pages where the first is fully processed
and the second raises, the failed job's `pages` list is empty — the
successfully processed `PageResult` is *not* attached to the job record,
refuting "those successfully processed PageResults are not discarded".
(`job.pages = page_results` is only executed after the loop finishes.) -/
theorem processJob_partial_results_discarded_cex :
    stepFailSecond 0 = PageStep.ok page1 ∧
    (processJob job0 [0, 1] stepFailSecond 7).status = JobStatus.failed ∧
    (processJob job0 [0, 1] stepFailSecond 7).pages = [] := by
  refine ⟨rfl, ?_, ?_⟩ <;> rfl

/-- C2 (amended): partial page results are discarded on failure — when an
unhandled error occurs during per-page processing, the job transitions to
failed with the raised message, and `job.pages` keeps its pre-run value
(empty for a fresh job); page results are attached only when every page
processes without an exception. -/
theorem processJob_failure_pages_unchanged {α : Type} (j : JobResult)
    (pages : List α) (step : α → PageStep) (tEnd : ℕ) (e : String)
    (h : processPages step pages [] = Except.error e) :
    (processJob j pages step tEnd).status = JobStatus.failed ∧
    (processJob j pages step tEnd).pages = j.pages ∧
    (processJob j pages step tEnd).summary = j.summary ∧
    (processJob j pages step tEnd).error = some e := by
  unfold processJob
  rw [h]
  exact ⟨rfl, rfl, rfl, rfl⟩

/-- Witness for `processJob_failure_pages_unchanged`: a concrete two-page
run whose second page raises. -/
theorem processJob_failure_pages_unchanged_witness :
    processPages stepFailSecond [0, 1] [] = Except.error "boom" ∧
    ((processJob job0 [0, 1] stepFailSecond 7).status = JobStatus.failed ∧
      (processJob job0 [0, 1] stepFailSecond 7).pages = job0.pages ∧
      (processJob job0 [0, 1] stepFailSecond 7).summary = job0.summary ∧
      (processJob job0 [0, 1] stepFailSecond 7).error = some "boom") :=
  ⟨rfl, processJob_failure_pages_unchanged job0 [0, 1] stepFailSecond 7 "boom" rfl⟩

/-! ### Geometry helpers — `app/services/pipeline.py` -/

/-- `_bbox_area`: `max(0, x2 - x1) * max(0, y2 - y1)` (as a rational,
since Python promotes to float downstream). -/
def bboxArea (b : ℤ × ℤ × ℤ × ℤ) : ℚ :=
  ((max 0 (b.2.2.1 - b.1) * max 0 (b.2.2.2 - b.2.1) : ℤ) : ℚ)

/-- `_intersection_area`: area of the axis-aligned intersection rectangle,
`0.0` when the boxes do not strictly overlap. -/
def intersectionArea (a b : ℤ × ℤ × ℤ × ℤ) : ℚ :=
  let ix1 := max a.1 b.1
  let iy1 := max a.2.1 b.2.1
  let ix2 := min a.2.2.1 b.2.2.1
  let iy2 := min a.2.2.2 b.2.2.2
  if ix2 ≤ ix1 ∨ iy2 ≤ iy1 then 0
  else (((ix2 - ix1) * (iy2 - iy1) : ℤ) : ℚ)

/-- Let-free unfolding of `intersectionArea`. -/
theorem intersectionArea_eq (a b : ℤ × ℤ × ℤ × ℤ) :
    intersectionArea a b =
      if min a.2.2.1 b.2.2.1 ≤ max a.1 b.1 ∨ min a.2.2.2 b.2.2.2 ≤ max a.2.1 b.2.1
      then 0
      else (((min a.2.2.1 b.2.2.1 - max a.1 b.1) *
        (min a.2.2.2 b.2.2.2 - max a.2.1 b.2.1) : ℤ) : ℚ) := rfl

theorem bboxArea_nonneg (b : ℤ × ℤ × ℤ × ℤ) : 0 ≤ bboxArea b := by
  unfold bboxArea
  have h1 : (0 : ℤ) ≤ max 0 (b.2.2.1 - b.1) := le_max_left _ _
  have h2 : (0 : ℤ) ≤ max 0 (b.2.2.2 - b.2.1) := le_max_left _ _
  exact_mod_cast mul_nonneg h1 h2

theorem intersectionArea_nonneg (a b : ℤ × ℤ × ℤ × ℤ) :
    0 ≤ intersectionArea a b := by
  rw [intersectionArea_eq]
  split
  · exact le_refl 0
  · rename_i h
    push_neg at h
    have h1 : (0 : ℤ) ≤ min a.2.2.1 b.2.2.1 - max a.1 b.1 := by omega
    have h2 : (0 : ℤ) ≤ min a.2.2.2 b.2.2.2 - max a.2.1 b.2.1 := by omega
    exact_mod_cast mul_nonneg h1 h2

/-- The intersection rectangle fits inside the second box, so its area is
bounded by the (clamped) area of that box. -/
theorem intersectionArea_le_right (a b : ℤ × ℤ × ℤ × ℤ) :
    intersectionArea a b ≤ bboxArea b := by
  rw [intersectionArea_eq]
  unfold bboxArea
  split
  · exact bboxArea_nonneg b
  · rename_i h
    push_neg at h
    have hx : min a.2.2.1 b.2.2.1 - max a.1 b.1 ≤ max 0 (b.2.2.1 - b.1) := by
      have := le_max_right (0 : ℤ) (b.2.2.1 - b.1)
      omega
    have hy : min a.2.2.2 b.2.2.2 - max a.2.1 b.2.1 ≤ max 0 (b.2.2.2 - b.2.1) := by
      have := le_max_right (0 : ℤ) (b.2.2.2 - b.2.1)
      omega
    have hx0 : (0 : ℤ) ≤ min a.2.2.1 b.2.2.1 - max a.1 b.1 := by omega
    have hy0 : (0 : ℤ) ≤ min a.2.2.2 b.2.2.2 - max a.2.1 b.2.1 := by omega
    have := mul_le_mul hx hy hy0 (by omega : (0:ℤ) ≤ max 0 (b.2.2.1 - b.1))
    exact_mod_cast this

/-! ### Overlap suppression — `app/services/pipeline.py` -/

/-- `_signature_inside_stamp`: a signature detection is suppressed when
some stamp either covers ≥ 90% of its area or has IoU ≥ 0.6 with it;
zero-area signatures are kept. -/
def signatureInsideStamp (sig : DetectionBox) (stamps : List DetectionBox) :
    Bool :=
  let sigArea := bboxArea sig.bbox
  if sigArea = 0 then false
  else
    stamps.any fun stamp =>
      let interArea := intersectionArea sig.bbox stamp.bbox
      if interArea = 0 then false
      else if 9/10 ≤ interArea / sigArea then true
      else
        let stampArea := bboxArea stamp.bbox
        if stampArea = 0 then false
        else 3/5 ≤ interArea / (sigArea + stampArea - interArea)

/-- Let-free unfolding of `signatureInsideStamp`. -/
theorem signatureInsideStamp_eq (sig : DetectionBox)
    (stamps : List DetectionBox) :
    signatureInsideStamp sig stamps =
      (if bboxArea sig.bbox = 0 then false
      else stamps.any fun stamp =>
        if intersectionArea sig.bbox stamp.bbox = 0 then false
        else if 9/10 ≤ intersectionArea sig.bbox stamp.bbox / bboxArea sig.bbox
          then true
        else if bboxArea stamp.bbox = 0 then false
        else decide (3/5 ≤ intersectionArea sig.bbox stamp.bbox /
          (bboxArea sig.bbox + bboxArea stamp.bbox -
            intersectionArea sig.bbox stamp.bbox))) := rfl

/-- `filter_signature_overlaps`: drops signature detections subsumed by a
stamp; everything else passes through in order. -/
def filterSignatureOverlaps (dets : List DetectionBox) : List DetectionBox :=
  if dets = [] then dets
  else
    let stamps := dets.filter (fun d => d.label == "stamp")
    if stamps = [] then dets
    else dets.filter fun d =>
      if d.label ≠ "signature" then true
      else ¬ signatureInsideStamp d stamps

/-- The suppression condition exactly as the spec words it: the signature
has positive area and some stamp satisfies coverage ≥ 0.9 or IoU ≥ 0.6
(IoU written as intersection over union of the clamped areas). -/
def specSuppressed (d : DetectionBox) (stamps : List DetectionBox) : Prop :=
  0 < bboxArea d.bbox ∧
    ∃ t ∈ stamps,
      9/10 ≤ intersectionArea d.bbox t.bbox / bboxArea d.bbox ∨
      3/5 ≤ intersectionArea d.bbox t.bbox /
        (bboxArea d.bbox + bboxArea t.bbox - intersectionArea d.bbox t.bbox)

instance (d : DetectionBox) (stamps : List DetectionBox) :
    Decidable (specSuppressed d stamps) := by
  unfold specSuppressed
  infer_instance

theorem signatureInsideStamp_iff (d : DetectionBox)
    (stamps : List DetectionBox) :
    signatureInsideStamp d stamps = true ↔ specSuppressed d stamps := by
  rw [signatureInsideStamp_eq]
  unfold specSuppressed
  by_cases hz : bboxArea d.bbox = 0
  · rw [if_pos hz]
    constructor
    · intro h
      exact absurd h (by simp)
    · rintro ⟨hpos, -⟩
      rw [hz] at hpos
      exact absurd hpos (lt_irrefl 0)
  · have hpos : 0 < bboxArea d.bbox := lt_of_le_of_ne (bboxArea_nonneg _) (Ne.symm hz)
    rw [if_neg hz, List.any_eq_true]
    constructor
    · rintro ⟨t, ht, hcond⟩
      refine ⟨hpos, t, ht, ?_⟩
      by_cases hi0 : intersectionArea d.bbox t.bbox = 0
      · rw [if_pos hi0] at hcond
        exact absurd hcond (by simp)
      · rw [if_neg hi0] at hcond
        by_cases hcov : 9/10 ≤ intersectionArea d.bbox t.bbox / bboxArea d.bbox
        · exact Or.inl hcov
        · rw [if_neg hcov] at hcond
          by_cases hst : bboxArea t.bbox = 0
          · rw [if_pos hst] at hcond
            exact absurd hcond (by simp)
          · rw [if_neg hst] at hcond
            exact Or.inr (of_decide_eq_true hcond)
    · rintro ⟨-, t, ht, hcond⟩
      refine ⟨t, ht, ?_⟩
      have hiNonneg := intersectionArea_nonneg d.bbox t.bbox
      by_cases hi0 : intersectionArea d.bbox t.bbox = 0
      · -- with a zero intersection both spec disjuncts are impossible
        exfalso
        rcases hcond with hcov | hiou
        · rw [hi0, zero_div] at hcov
          norm_num at hcov
        · rw [hi0, zero_div] at hiou
          norm_num at hiou
      · rw [if_neg hi0]
        by_cases hcov : 9/10 ≤ intersectionArea d.bbox t.bbox / bboxArea d.bbox
        · rw [if_pos hcov]
        · rw [if_neg hcov]
          rcases hcond with h | hiou
          · exact absurd h hcov
          · have hile : intersectionArea d.bbox t.bbox ≤ bboxArea t.bbox :=
              intersectionArea_le_right d.bbox t.bbox
            have hipos : 0 < intersectionArea d.bbox t.bbox :=
              lt_of_le_of_ne hiNonneg (Ne.symm hi0)
            have hstpos : 0 < bboxArea t.bbox := lt_of_lt_of_le hipos hile
            rw [if_neg (ne_of_gt hstpos)]
            exact decide_eq_true hiou

/-- C5: with at least one stamp present, the overlap suppressor keeps
exactly the detections that are not signatures suppressed by the spec's
rule — a signature is dropped iff some stamp covers ≥ 90% of it or has
IoU ≥ 0.6 with it; non-signature detections always pass through in their
original positions, and a zero-area signature is never suppressed (the
`0 < area` conjunct of `specSuppressed`). -/
theorem filter_signature_overlaps_spec (dets : List DetectionBox)
    (h : ∃ d ∈ dets, d.label = "stamp") :
    filterSignatureOverlaps dets = dets.filter fun d =>
      decide (d.label ≠ "signature" ∨
        ¬ specSuppressed d (dets.filter (fun x => x.label == "stamp"))) := by
  obtain ⟨d0, hd0, hlab⟩ := h
  have hne : dets ≠ [] := by
    intro hnil
    rw [hnil] at hd0
    exact absurd hd0 (List.not_mem_nil d0)
  have hstne : dets.filter (fun x => x.label == "stamp") ≠ [] := by
    intro hnil
    have : d0 ∈ dets.filter (fun x => x.label == "stamp") := by
      rw [List.mem_filter]
      exact ⟨hd0, by simp [hlab]⟩
    rw [hnil] at this
    exact absurd this (List.not_mem_nil d0)
  unfold filterSignatureOverlaps
  simp only [if_neg hne, if_neg hstne]
  apply List.filter_congr
  intro d hd
  by_cases hsig : d.label = "signature"
  · by_cases hb : signatureInsideStamp d (dets.filter (fun x => x.label == "stamp")) = true
    · have hs : specSuppressed d (dets.filter (fun x => x.label == "stamp")) :=
        (signatureInsideStamp_iff d _).mp hb
      simp [hsig, hb, hs]
    · have hs : ¬ specSuppressed d (dets.filter (fun x => x.label == "stamp")) :=
        fun hc => hb ((signatureInsideStamp_iff d _).mpr hc)
      simp [hsig, hb, hs]
  · simp [hsig]

/-- Concrete fixture: one stamp and three signatures — one nested inside
the stamp (dropped by coverage), one disjoint (kept), one zero-area
(kept). -/
def detsFixture : List DetectionBox :=
  [⟨"stamp", 8/10, (0, 0, 200, 200)⟩,
   ⟨"signature", 9/10, (0, 0, 50, 50)⟩,
   ⟨"signature", 7/10, (300, 300, 350, 350)⟩,
   ⟨"signature", 6/10, (400, 400, 400, 420)⟩]

/-- Witness for `filter_signature_overlaps_spec` on `detsFixture`. -/
theorem filter_signature_overlaps_spec_witness :
    (∃ d ∈ detsFixture, d.label = "stamp") ∧
    filterSignatureOverlaps detsFixture = detsFixture.filter (fun d =>
      decide (d.label ≠ "signature" ∨
        ¬ specSuppressed d (detsFixture.filter (fun x => x.label == "stamp")))) :=
  ⟨⟨⟨"stamp", 8/10, (0, 0, 200, 200)⟩, by simp [detsFixture], rfl⟩,
    filter_signature_overlaps_spec detsFixture
      ⟨⟨"stamp", 8/10, (0, 0, 200, 200)⟩, by simp [detsFixture], rfl⟩⟩

/-! ### Settings — `app/core/config.py` -/

/-- The calibration fields of `Settings` that the core algorithms read
(path/env plumbing dropped).  Field defaults mirror `config.py`. -/
structure Settings where
  enable_heatmap : Bool := true
  heatmap_sigma_scale : ℚ := 1/5
  low_conf_threshold : ℚ := 1/2
  high_conf_threshold : ℚ := 4/5
deriving DecidableEq, Repr

/-- The module-level `settings = Settings()` instance (all defaults). -/
def settings : Settings := {}

/-! ### Heatmap accumulator — `app/services/heatmap.py` -/

/-- `sigma_x = max(1.0, w * settings.heatmap_sigma_scale)` where
`w = max(1, x2 - x1)` in `add_gaussian_to_heatmap`. -/
def sigmaX (scale : ℚ) (x1 x2 : ℤ) : ℚ :=
  max 1 (((max 1 (x2 - x1) : ℤ) : ℚ) * scale)

/-- `sigma_y = max(1.0, h * settings.heatmap_sigma_scale)` where
`h = max(1, y2 - y1)` in `add_gaussian_to_heatmap`. -/
def sigmaY (scale : ℚ) (y1 y2 : ℤ) : ℚ :=
  max 1 (((max 1 (y2 - y1) : ℤ) : ℚ) * scale)

/-- Modelled from the spec's words (§4.5 HeatmapAccumulator), for
comparison with the source's `sigmaX`/`sigmaY`: "compute center (cx,cy)
and half-extents (w,h); set sigma_x = max(1, w × sigma_scale)" — i.e. the
spread computed from half the box width. -/
def sigmaSpecHalfExtent (scale : ℚ) (x1 x2 : ℤ) : ℚ :=
  max 1 ((((x2 - x1 : ℤ) : ℚ) / 2) * scale)

/-- The Gaussian contribution of one box at integer grid cell `(x, y)`
(`add_gaussian_to_heatmap`): centre by floor division, spreads from
`sigmaX`/`sigmaY`. -/
noncomputable def gaussianAt (scale : ℚ) (bbox : ℤ × ℤ × ℤ × ℤ)
    (x y : ℕ) : ℝ :=
  Real.exp (-(((x : ℝ) - ((Int.fdiv (bbox.1 + bbox.2.2.1) 2 : ℤ) : ℝ))^2 /
      (2 * ((sigmaX scale bbox.1 bbox.2.2.1 : ℚ) : ℝ)^2) +
    ((y : ℝ) - ((Int.fdiv (bbox.2.1 + bbox.2.2.2) 2 : ℤ) : ℝ))^2 /
      (2 * ((sigmaY scale bbox.2.1 bbox.2.2.2 : ℚ) : ℝ)^2)))

/-- `polygon_to_bbox` from `app/services/qr_detector.py`:
`(min(xs), min(ys), max(xs), max(ys))` over the quad's points. -/
def polygonToBbox (q : Quad) : ℤ × ℤ × ℤ × ℤ :=
  (min (min q.p0.1 q.p1.1) (min q.p2.1 q.p3.1),
   min (min q.p0.2 q.p1.2) (min q.p2.2 q.p3.2),
   max (max q.p0.1 q.p1.1) (max q.p2.1 q.p3.1),
   max (max q.p0.2 q.p1.2) (max q.p2.2 q.p3.2))

/-- The splat list of `generate_heatmap`: each surviving detection box
with its own confidence, then each QR polygon's bounding box with the
fixed weight `0.9`. -/
def heatmapSplats (dets : List DetectionBox) (qrPolys : List Quad) :
    List ((ℤ × ℤ × ℤ × ℤ) × ℚ) :=
  dets.map (fun d => (d.bbox, d.confidence)) ++
    qrPolys.map (fun q => (polygonToBbox q, 9/10))

/-- The accumulator cell value after all splats
(`heatmap += gaussian * confidence`, starting from `np.zeros`). -/
noncomputable def accumCell (scale : ℚ)
    (splats : List ((ℤ × ℤ × ℤ × ℤ) × ℚ)) (x y : ℕ) : ℝ :=
  splats.foldl (fun acc s => acc + gaussianAt scale s.1 x y * (s.2 : ℝ)) 0

/-- `heatmap.max()` over the `height × width` grid.  The fold is seeded
with `0`, which agrees with NumPy's seedless maximum whenever it is
consulted: the accumulator cells are sums of non-negative terms, and the
normalization branch only compares the maximum against `0`. -/
noncomputable def gridMax (hgt wd : ℕ) (f : ℕ → ℕ → ℝ) : ℝ :=
  ((List.range hgt).flatMap fun y => (List.range wd).map fun x => f x y).foldl max 0

/-- The cell value after the normalization step of `generate_heatmap`:
`if heatmap.max() > 0: heatmap /= heatmap.max()`. -/
noncomputable def normalizedCell (hgt wd : ℕ) (scale : ℚ)
    (splats : List ((ℤ × ℤ × ℤ × ℤ) × ℚ)) (x y : ℕ) : ℝ :=
  if 0 < gridMax hgt wd (accumCell scale splats) then
    accumCell scale splats x y / gridMax hgt wd (accumCell scale splats)
  else accumCell scale splats x y

/-! ### C3 theorems -/

/-- C3 counterexample: for the box `(0, 0, 10, 10)` at the default scale
0.2 the code computes `sigma_x = max(1, 10 × 0.2) = 2` from the full
width, while the spec's half-extent formula gives `max(1, 5 × 0.2) = 1` —
refuting "the Gaussian spreads are computed from the box's
half-extents". -/
theorem sigma_half_extent_cex :
    sigmaX settings.heatmap_sigma_scale 0 10 = 2 ∧
    sigmaSpecHalfExtent settings.heatmap_sigma_scale 0 10 = 1 ∧
    sigmaX settings.heatmap_sigma_scale 0 10 ≠
      sigmaSpecHalfExtent settings.heatmap_sigma_scale 0 10 := by
  refine ⟨?_, ?_, ?_⟩ <;> norm_num [sigmaX, sigmaSpecHalfExtent, settings]

/-- C3 (amended): the Gaussian spreads are computed from the box's *full*
extents — `sigma_x = max(1, max(1, x2−x1) × sigma_scale)`, which for a
well-formed box and any scale in `(0, 1]` equals
`max(1, (x2−x1) × sigma_scale)` — and likewise for `sigma_y`;
`sigma_scale` defaults to 0.2. -/
theorem sigma_from_full_extents :
    settings.heatmap_sigma_scale = 1/5 ∧
    ∀ (scale : ℚ) (x1 x2 : ℤ), 0 < scale → scale ≤ 1 → x1 ≤ x2 →
      sigmaX scale x1 x2 = max 1 (((x2 - x1 : ℤ) : ℚ) * scale) ∧
      sigmaY scale x1 x2 = max 1 (((x2 - x1 : ℤ) : ℚ) * scale) := by
  refine ⟨rfl, ?_⟩
  intro scale x1 x2 hpos hle hx
  have key : max 1 (((max 1 (x2 - x1) : ℤ) : ℚ) * scale) =
      max 1 (((x2 - x1 : ℤ) : ℚ) * scale) := by
    rcases lt_or_eq_of_le hx with hlt | heq
    · have h1 : (1 : ℤ) ≤ x2 - x1 := by omega
      rw [max_eq_right h1]
    · have h0 : x2 - x1 = 0 := by omega
      rw [h0]
      have hm : (max 1 (0 : ℤ)) = 1 := by omega
      rw [hm]
      push_cast
      rw [one_mul, zero_mul]
      rw [max_eq_left hle, max_eq_left (by norm_num : (0:ℚ) ≤ 1)]
  exact ⟨key, key⟩

/-- Witness for `sigma_from_full_extents` at scale 0.2 and box width 10. -/
theorem sigma_from_full_extents_witness :
    (0 : ℚ) < 1/5 ∧ (1 : ℚ)/5 ≤ 1 ∧ (0 : ℤ) ≤ 10 ∧
    sigmaX (1/5) 0 10 = max 1 (((10 - 0 : ℤ) : ℚ) * (1/5)) :=
  ⟨by norm_num, by norm_num, by norm_num,
    (sigma_from_full_extents.2 (1/5) 0 10 (by norm_num) (by norm_num)
      (by norm_num)).1⟩

/-! ### C8 theorem -/

theorem foldl_max_init_le (l : List ℝ) : ∀ a : ℝ, a ≤ l.foldl max a := by
  induction l with
  | nil => intro a; simp
  | cons h t ih =>
      intro a
      calc a ≤ max a h := le_max_left _ _
        _ ≤ t.foldl max (max a h) := ih _

theorem foldl_max_le_of_mem {x : ℝ} {l : List ℝ} (hx : x ∈ l) :
    ∀ a : ℝ, x ≤ l.foldl max a := by
  induction l with
  | nil => cases hx
  | cons h t ih =>
      intro a
      rcases List.mem_cons.mp hx with rfl | hmem
      · calc x ≤ max a x := le_max_right _ _
          _ ≤ t.foldl max (max a x) := foldl_max_init_le t _
      · exact ih hmem _

theorem foldl_max_le {l : List ℝ} {c : ℝ} (h : ∀ x ∈ l, x ≤ c) :
    ∀ a : ℝ, a ≤ c → l.foldl max a ≤ c := by
  induction l with
  | nil => intro a ha; simpa using ha
  | cons hd t ih =>
      intro a ha
      exact ih (fun x hx => h x (List.mem_cons_of_mem _ hx))
        (max a hd) (max_le ha (h hd (List.mem_cons_self _ _)))

theorem accumCell_nonneg (scale : ℚ)
    (splats : List ((ℤ × ℤ × ℤ × ℤ) × ℚ))
    (hs : ∀ s ∈ splats, 0 ≤ s.2) (x y : ℕ) :
    0 ≤ accumCell scale splats x y := by
  unfold accumCell
  suffices h : ∀ (l : List ((ℤ × ℤ × ℤ × ℤ) × ℚ)) (acc : ℝ),
      (∀ s ∈ l, 0 ≤ s.2) → 0 ≤ acc →
      0 ≤ l.foldl (fun acc s => acc + gaussianAt scale s.1 x y * (s.2 : ℝ)) acc by
    exact h splats 0 hs (le_refl 0)
  intro l
  induction l with
  | nil => intro acc _ hacc; simpa using hacc
  | cons s t ih =>
      intro acc hl hacc
      refine ih _ (fun u hu => hl u (List.mem_cons_of_mem _ hu)) ?_
      have h0 : (0 : ℚ) ≤ s.2 := hl s (List.mem_cons_self _ _)
      have : (0 : ℝ) ≤ gaussianAt scale s.1 x y * (s.2 : ℝ) :=
        mul_nonneg (le_of_lt (Real.exp_pos _)) (by exact_mod_cast h0)
      show (0 : ℝ) ≤ acc + gaussianAt scale s.1 x y * (s.2 : ℝ)
      linarith

theorem accumCell_mem_grid (hgt wd : ℕ) (scale : ℚ)
    (splats : List ((ℤ × ℤ × ℤ × ℤ) × ℚ)) (x y : ℕ)
    (hx : x < wd) (hy : y < hgt) :
    accumCell scale splats x y ∈
      ((List.range hgt).flatMap fun b => (List.range wd).map fun a =>
        accumCell scale splats a b) := by
  rw [List.mem_flatMap]
  exact ⟨y, List.mem_range.mpr hy,
    List.mem_map.mpr ⟨x, List.mem_range.mpr hx, rfl⟩⟩

/-- C8: after accumulation and normalization every in-range cell lies in
`[0, 1]` whenever all detection confidences lie in `[0, 1]` (the QR
splats carry the fixed weight 0.9), and with no detections and no QR
polygons every cell of the map is zero. -/
theorem heatmap_normalized_bounds (hgt wd : ℕ) (scale : ℚ)
    (dets : List DetectionBox) (qrPolys : List Quad)
    (hconf : ∀ d ∈ dets, 0 ≤ d.confidence ∧ d.confidence ≤ 1) :
    (∀ x y, x < wd → y < hgt →
      0 ≤ normalizedCell hgt wd scale (heatmapSplats dets qrPolys) x y ∧
      normalizedCell hgt wd scale (heatmapSplats dets qrPolys) x y ≤ 1) ∧
    (dets = [] → qrPolys = [] → ∀ x y,
      normalizedCell hgt wd scale (heatmapSplats dets qrPolys) x y = 0) := by
  have hs : ∀ s ∈ heatmapSplats dets qrPolys, 0 ≤ s.2 := by
    intro s hsmem
    unfold heatmapSplats at hsmem
    rcases List.mem_append.mp hsmem with hm | hm
    · obtain ⟨d, hd, rfl⟩ := List.mem_map.mp hm
      exact (hconf d hd).1
    · obtain ⟨q, hq, rfl⟩ := List.mem_map.mp hm
      norm_num
  constructor
  · intro x y hx hy
    have hnn := accumCell_nonneg scale (heatmapSplats dets qrPolys) hs x y
    have hmem := accumCell_mem_grid hgt wd scale (heatmapSplats dets qrPolys)
      x y hx hy
    have hle : accumCell scale (heatmapSplats dets qrPolys) x y ≤
        gridMax hgt wd (accumCell scale (heatmapSplats dets qrPolys)) :=
      foldl_max_le_of_mem hmem 0
    unfold normalizedCell
    by_cases hm : 0 < gridMax hgt wd (accumCell scale (heatmapSplats dets qrPolys))
    · rw [if_pos hm]
      exact ⟨div_nonneg hnn (le_of_lt hm), (div_le_one hm).mpr hle⟩
    · rw [if_neg hm]
      push_neg at hm
      have : accumCell scale (heatmapSplats dets qrPolys) x y = 0 :=
        le_antisymm (le_trans hle hm) hnn
      rw [this]
      norm_num
  · rintro rfl rfl x y
    have hzero : ∀ a b : ℕ, accumCell scale (heatmapSplats [] []) a b = 0 := by
      intro a b
      rfl
    have hgm : gridMax hgt wd (accumCell scale (heatmapSplats [] [])) ≤ 0 := by
      unfold gridMax
      refine foldl_max_le ?_ 0 (le_refl 0)
      intro v hv
      rw [List.mem_flatMap] at hv
      obtain ⟨b, -, hv2⟩ := hv
      obtain ⟨a, -, rfl⟩ := List.mem_map.mp hv2
      rw [hzero a b]
    unfold normalizedCell
    rw [if_neg (by exact fun hc => absurd (lt_of_lt_of_le hc hgm) (lt_irrefl 0)),
      hzero x y]

/-- Witness for `heatmap_normalized_bounds`: a 1×1 grid with a single
half-confidence detection. -/
theorem heatmap_normalized_bounds_witness :
    (∀ d ∈ [(⟨"signature", 1/2, (0, 0, 1, 1)⟩ : DetectionBox)],
      0 ≤ d.confidence ∧ d.confidence ≤ 1) ∧
    ((∀ x y, x < 1 → y < 1 →
      0 ≤ normalizedCell 1 1 (1/5)
        (heatmapSplats [⟨"signature", 1/2, (0, 0, 1, 1)⟩] []) x y ∧
      normalizedCell 1 1 (1/5)
        (heatmapSplats [⟨"signature", 1/2, (0, 0, 1, 1)⟩] []) x y ≤ 1) ∧
    ([(⟨"signature", 1/2, (0, 0, 1, 1)⟩ : DetectionBox)] = [] → ([] : List Quad) = [] →
      ∀ x y, normalizedCell 1 1 (1/5)
        (heatmapSplats [⟨"signature", 1/2, (0, 0, 1, 1)⟩] []) x y = 0)) := by
  have hc : ∀ d ∈ [(⟨"signature", 1/2, (0, 0, 1, 1)⟩ : DetectionBox)],
      0 ≤ d.confidence ∧ d.confidence ≤ 1 := by
    intro d hd
    rw [List.mem_singleton] at hd
    subst hd
    norm_num
  exact ⟨hc, heatmap_normalized_bounds 1 1 (1/5)
    [⟨"signature", 1/2, (0, 0, 1, 1)⟩] [] hc⟩

/-! ### Review classification — `app/services/pipeline.py::analyze_review_need` -/

/-- `analyze_review_need`: early-out when the page has neither detections
nor QR hits, then flag if any surviving detection's confidence falls
below `review_low` or into `[review_low, review_high)`. -/
def analyzeReviewNeed (s : Settings) (dets : List DetectionBox)
    (qrs : List QRDetectionRec) : Bool :=
  if dets = [] ∧ qrs = [] then false
  else
    let reviewLow := max 0 (s.low_conf_threshold * (6/10))
    let reviewHigh := max reviewLow (s.high_conf_threshold * (6/10))
    dets.any fun det =>
      decide (det.confidence < reviewLow) ||
      decide (reviewLow ≤ det.confidence ∧ det.confidence < reviewHigh)

/-- Let-free unfolding of `analyzeReviewNeed`. -/
theorem analyzeReviewNeed_eq (s : Settings) (dets : List DetectionBox)
    (qrs : List QRDetectionRec) :
    analyzeReviewNeed s dets qrs =
      (if dets = [] ∧ qrs = [] then false
      else dets.any fun det =>
        decide (det.confidence < max 0 (s.low_conf_threshold * (6/10))) ||
        decide (max 0 (s.low_conf_threshold * (6/10)) ≤ det.confidence ∧
          det.confidence < max (max 0 (s.low_conf_threshold * (6/10)))
            (s.high_conf_threshold * (6/10)))) := rfl

/-- C9: the two written confidence-band conditions collapse to the single
test "confidence < review_high" with
`review_high = max(0.6·low_conf, 0.6·high_conf)` (for non-negative
`low_conf_threshold`, so that the code's `max(0.0, ·)` clamp is the
identity and `review_low = 0.6·low_conf_threshold`); a page with no
detections and no QR hits is never flagged. -/
theorem analyze_review_need_spec (s : Settings) (dets : List DetectionBox)
    (qrs : List QRDetectionRec) (hlow : 0 ≤ s.low_conf_threshold) :
    (analyzeReviewNeed s dets qrs = true ↔
      ∃ d ∈ dets, d.confidence <
        max (s.low_conf_threshold * (6/10)) (s.high_conf_threshold * (6/10))) ∧
    (dets = [] → qrs = [] → analyzeReviewNeed s dets qrs = false) := by
  have hclamp : max 0 (s.low_conf_threshold * (6/10)) =
      s.low_conf_threshold * (6/10) :=
    max_eq_right (mul_nonneg hlow (by norm_num))
  constructor
  · rw [analyzeReviewNeed_eq]
    by_cases hempty : dets = [] ∧ qrs = []
    · rw [if_pos hempty]
      simp [hempty.1]
    · rw [if_neg hempty, List.any_eq_true]
      constructor
      · rintro ⟨d, hd, hcond⟩
        refine ⟨d, hd, ?_⟩
        rw [Bool.or_eq_true, decide_eq_true_eq, decide_eq_true_eq] at hcond
        rw [hclamp] at hcond
        rcases hcond with hlt | ⟨-, hlt⟩
        · exact lt_of_lt_of_le hlt (le_max_left _ _)
        · exact hlt
      · rintro ⟨d, hd, hlt⟩
        refine ⟨d, hd, ?_⟩
        rw [Bool.or_eq_true, decide_eq_true_eq, decide_eq_true_eq, hclamp]
        by_cases hl : d.confidence < s.low_conf_threshold * (6/10)
        · exact Or.inl hl
        · exact Or.inr ⟨not_lt.mp hl, hlt⟩
  · rintro rfl rfl
    rfl

/-- Witness for `analyze_review_need_spec`: spec scenario 5 — a lone
detection with confidence 0.4 at the default thresholds (0.5, 0.8). -/
theorem analyze_review_need_spec_witness :
    (0 : ℚ) ≤ settings.low_conf_threshold ∧
    ((analyzeReviewNeed settings [⟨"signature", 4/10, (0, 0, 10, 10)⟩] [] = true ↔
      ∃ d ∈ [(⟨"signature", 4/10, (0, 0, 10, 10)⟩ : DetectionBox)], d.confidence <
        max (settings.low_conf_threshold * (6/10))
          (settings.high_conf_threshold * (6/10))) ∧
    (([(⟨"signature", 4/10, (0, 0, 10, 10)⟩ : DetectionBox)]) = [] →
      ([] : List QRDetectionRec) = [] →
      analyzeReviewNeed settings [⟨"signature", 4/10, (0, 0, 10, 10)⟩] [] = false)) :=
  ⟨by norm_num [settings],
    analyze_review_need_spec settings [⟨"signature", 4/10, (0, 0, 10, 10)⟩] []
      (by norm_num [settings])⟩

/-- C10: with an empty surviving-detection list the review classifier
returns `false` no matter how many accepted QR detections the page has —
QR hits alone never trigger review — even though those QR hits are
counted into the job summary (`addPageCounts`) and are splatted into the
heatmap accumulator (`heatmapSplats`). -/
theorem analyze_review_no_detections (s : Settings)
    (qrs : List QRDetectionRec) :
    analyzeReviewNeed s [] qrs = false ∧
    (∀ c : Summary,
      (addPageCounts c [] (qrs.map fun q => ⟨q.text, q.polygon⟩)).qr =
        c.qr + qrs.length) ∧
    (heatmapSplats [] (qrs.map fun q => q.polygon)).length = qrs.length := by
  refine ⟨?_, ?_, ?_⟩
  · rw [analyzeReviewNeed_eq]
    by_cases hempty : ([] : List DetectionBox) = [] ∧ qrs = []
    · rw [if_pos hempty]
    · rw [if_neg hempty]
      rfl
  · intro c
    simp [addPageCounts]
  · simp [heatmapSplats]

/-! ### QR candidate filter — `app/services/qr_detector.py::QRDetector._filter`
(and its twin `filter_qr_candidates` in `qr_detect.py`) -/

/-- Python's `str.strip()` whitespace set (ASCII). -/
def isPythonSpace (c : Char) : Bool :=
  c == ' ' || c == '\t' || c == '\n' || c == '\x0d' || c == '\x0b' || c == '\x0c'

/-- Python's `text.strip()`: drop leading and trailing whitespace. -/
def pythonStrip (s : String) : String :=
  ⟨((s.data.dropWhile isPythonSpace).reverse.dropWhile isPythonSpace).reverse⟩

/-- Smallest x-coordinate of the quad (`min(xs)`). -/
def quadMinX (q : Quad) : ℤ := min (min q.p0.1 q.p1.1) (min q.p2.1 q.p3.1)

/-- Largest x-coordinate of the quad (`max(xs)`). -/
def quadMaxX (q : Quad) : ℤ := max (max q.p0.1 q.p1.1) (max q.p2.1 q.p3.1)

/-- Smallest y-coordinate of the quad (`min(ys)`). -/
def quadMinY (q : Quad) : ℤ := min (min q.p0.2 q.p1.2) (min q.p2.2 q.p3.2)

/-- Largest y-coordinate of the quad (`max(ys)`). -/
def quadMaxY (q : Quad) : ℤ := max (max q.p0.2 q.p1.2) (max q.p2.2 q.p3.2)

/-- Squared Euclidean length of one quad edge.  The source compares
`hypot` values (square roots); since `sqrt` is strictly monotone on
non-negative reals, every comparison it makes is carried out here on the
squares. -/
def edgeSq (a b : ℤ × ℤ) : ℤ := (a.1 - b.1)^2 + (a.2 - b.2)^2

/-- Minimum of the 4 squared edge lengths (`min(edge_lengths)`, squared). -/
def minEdgeSq (q : Quad) : ℤ :=
  min (min (edgeSq q.p0 q.p1) (edgeSq q.p1 q.p2))
    (min (edgeSq q.p2 q.p3) (edgeSq q.p3 q.p0))

/-- Maximum of the 4 squared edge lengths (`max(edge_lengths)`, squared). -/
def maxEdgeSq (q : Quad) : ℤ :=
  max (max (edgeSq q.p0 q.p1) (edgeSq q.p1 q.p2))
    (max (edgeSq q.p2 q.p3) (edgeSq q.p3 q.p0))

/-- The per-candidate body of `QRDetector._filter`'s loop, as the
acceptance test (each `continue` becomes `false`).  The edge-ratio test
`min_edge <= 0 or max_edge / min_edge > 1.25` is expressed on squared
lengths: for positive edges `max/min > 5/4 ↔ 16·max² > 25·min²`. -/
def acceptQR (imgH imgW : ℕ) (text : String) (q : Quad) : Bool :=
  if text = "" ∨ (pythonStrip text).length < 4 then false
  else
    let w := quadMaxX q - quadMinX q
    let h := quadMaxY q - quadMinY q
    if w ≤ 0 ∨ h ≤ 0 then false
    else if w < 48 ∨ h < 48 then false
    else
      let imageArea : ℤ := max 1 ((imgH : ℤ) * (imgW : ℤ))
      let areaRatio : ℚ := ((w * h : ℤ) : ℚ) / ((imageArea : ℤ) : ℚ)
      if areaRatio < 1/1000 ∨ 3/100 < areaRatio then false
      else
        let aspect : ℚ := if h = 0 then 0 else ((w : ℤ) : ℚ) / ((h : ℤ) : ℚ)
        if ¬(7/10 ≤ aspect ∧ aspect ≤ 13/10) then false
        else if minEdgeSq q ≤ 0 ∨ 25 * minEdgeSq q < 16 * maxEdgeSq q then false
        else true

/-- Let-free unfolding of `acceptQR`. -/
theorem acceptQR_eq (imgH imgW : ℕ) (text : String) (q : Quad) :
    acceptQR imgH imgW text q =
      (if text = "" ∨ (pythonStrip text).length < 4 then false
      else if quadMaxX q - quadMinX q ≤ 0 ∨ quadMaxY q - quadMinY q ≤ 0 then false
      else if quadMaxX q - quadMinX q < 48 ∨ quadMaxY q - quadMinY q < 48 then false
      else if ((((quadMaxX q - quadMinX q) * (quadMaxY q - quadMinY q) : ℤ) : ℚ) /
          ((max 1 ((imgH : ℤ) * (imgW : ℤ)) : ℤ) : ℚ) < 1/1000 ∨
          (3 : ℚ)/100 < (((quadMaxX q - quadMinX q) * (quadMaxY q - quadMinY q) : ℤ) : ℚ) /
          ((max 1 ((imgH : ℤ) * (imgW : ℤ)) : ℤ) : ℚ)) then false
      else if ¬((7 : ℚ)/10 ≤ (if quadMaxY q - quadMinY q = 0 then 0
            else ((quadMaxX q - quadMinX q : ℤ) : ℚ) / ((quadMaxY q - quadMinY q : ℤ) : ℚ)) ∧
          (if quadMaxY q - quadMinY q = 0 then 0
            else ((quadMaxX q - quadMinX q : ℤ) : ℚ) / ((quadMaxY q - quadMinY q : ℤ) : ℚ)) ≤ 13/10)
        then false
      else if minEdgeSq q ≤ 0 ∨ 25 * minEdgeSq q < 16 * maxEdgeSq q then false
      else true) := rfl

/-- `QRDetector._filter` / `filter_qr_candidates`, over the zipped
`(text, quad)` candidate pairs (the source builds `filtered_data` and
`filtered_boxes` in lockstep; they are the unzip of this list). -/
def filterQRCandidates (cands : List (String × Quad)) (imgH imgW : ℕ) :
    List (String × Quad) :=
  if cands = [] then []
  else cands.filter fun c => acceptQR imgH imgW c.1 c.2

/-- The five acceptance rules exactly as the spec words them: trimmed
text length ≥ 4; axis-aligned span ≥ 48 px on both sides; area ratio in
[0.001, 0.03]; aspect ratio (width/height) in [0.7, 1.3]; near-regular
quad — positive minimum edge and `max_edge/min_edge ≤ 1.25`, stated on
squared edge lengths (`16·max² ≤ 25·min²`). -/
def specAcceptQR (imgH imgW : ℕ) (text : String) (q : Quad) : Prop :=
  4 ≤ (pythonStrip text).length ∧
  48 ≤ quadMaxX q - quadMinX q ∧ 48 ≤ quadMaxY q - quadMinY q ∧
  1/1000 ≤ (((quadMaxX q - quadMinX q) * (quadMaxY q - quadMinY q) : ℤ) : ℚ) /
    ((max 1 ((imgH : ℤ) * (imgW : ℤ)) : ℤ) : ℚ) ∧
  (((quadMaxX q - quadMinX q) * (quadMaxY q - quadMinY q) : ℤ) : ℚ) /
    ((max 1 ((imgH : ℤ) * (imgW : ℤ)) : ℤ) : ℚ) ≤ 3/100 ∧
  7/10 ≤ ((quadMaxX q - quadMinX q : ℤ) : ℚ) / ((quadMaxY q - quadMinY q : ℤ) : ℚ) ∧
  ((quadMaxX q - quadMinX q : ℤ) : ℚ) / ((quadMaxY q - quadMinY q : ℤ) : ℚ) ≤ 13/10 ∧
  0 < minEdgeSq q ∧ 16 * maxEdgeSq q ≤ 25 * minEdgeSq q

instance (imgH imgW : ℕ) (text : String) (q : Quad) :
    Decidable (specAcceptQR imgH imgW text q) := by
  unfold specAcceptQR
  infer_instance

theorem acceptQR_iff (imgH imgW : ℕ) (text : String) (q : Quad) :
    acceptQR imgH imgW text q = true ↔ specAcceptQR imgH imgW text q := by
  rw [acceptQR_eq]
  unfold specAcceptQR
  constructor
  · intro hacc
    by_cases h1 : text = "" ∨ (pythonStrip text).length < 4
    · rw [if_pos h1] at hacc
      exact absurd hacc (by simp)
    · rw [if_neg h1] at hacc
      by_cases h2 : quadMaxX q - quadMinX q ≤ 0 ∨ quadMaxY q - quadMinY q ≤ 0
      · rw [if_pos h2] at hacc
        exact absurd hacc (by simp)
      · rw [if_neg h2] at hacc
        by_cases h3 : quadMaxX q - quadMinX q < 48 ∨ quadMaxY q - quadMinY q < 48
        · rw [if_pos h3] at hacc
          exact absurd hacc (by simp)
        · rw [if_neg h3] at hacc
          by_cases h4 : ((((quadMaxX q - quadMinX q) * (quadMaxY q - quadMinY q) : ℤ) : ℚ) /
              ((max 1 ((imgH : ℤ) * (imgW : ℤ)) : ℤ) : ℚ) < 1/1000 ∨
              (3 : ℚ)/100 < (((quadMaxX q - quadMinX q) * (quadMaxY q - quadMinY q) : ℤ) : ℚ) /
              ((max 1 ((imgH : ℤ) * (imgW : ℤ)) : ℤ) : ℚ))
          · rw [if_pos h4] at hacc
            exact absurd hacc (by simp)
          · rw [if_neg h4] at hacc
            have hh0 : quadMaxY q - quadMinY q ≠ 0 := by
              push_neg at h3
              omega
            rw [if_neg hh0] at hacc
            by_cases h5 : ¬((7 : ℚ)/10 ≤
                ((quadMaxX q - quadMinX q : ℤ) : ℚ) / ((quadMaxY q - quadMinY q : ℤ) : ℚ) ∧
                ((quadMaxX q - quadMinX q : ℤ) : ℚ) / ((quadMaxY q - quadMinY q : ℤ) : ℚ) ≤ 13/10)
            · rw [if_pos h5] at hacc
              exact absurd hacc (by simp)
            · rw [if_neg h5] at hacc
              by_cases h6 : minEdgeSq q ≤ 0 ∨ 25 * minEdgeSq q < 16 * maxEdgeSq q
              · rw [if_pos h6] at hacc
                exact absurd hacc (by simp)
              · push_neg at h1 h2 h3 h4 h5 h6
                exact ⟨h1.2, h3.1, h3.2, h4.1, h4.2, h5.1, h5.2, h6.1, h6.2⟩
  · rintro ⟨hlen, hw, hh, hr1, hr2, ha1, ha2, he1, he2⟩
    have h1 : ¬(text = "" ∨ (pythonStrip text).length < 4) := by
      rintro (rfl | hlt)
      · have : (pythonStrip "").length = 0 := rfl
        omega
      · omega
    have h2 : ¬(quadMaxX q - quadMinX q ≤ 0 ∨ quadMaxY q - quadMinY q ≤ 0) := by omega
    have h3 : ¬(quadMaxX q - quadMinX q < 48 ∨ quadMaxY q - quadMinY q < 48) := by omega
    have h4 : ¬((((quadMaxX q - quadMinX q) * (quadMaxY q - quadMinY q) : ℤ) : ℚ) /
        ((max 1 ((imgH : ℤ) * (imgW : ℤ)) : ℤ) : ℚ) < 1/1000 ∨
        (3 : ℚ)/100 < (((quadMaxX q - quadMinX q) * (quadMaxY q - quadMinY q) : ℤ) : ℚ) /
        ((max 1 ((imgH : ℤ) * (imgW : ℤ)) : ℤ) : ℚ)) := by
      push_neg
      exact ⟨hr1, hr2⟩
    have hh0 : quadMaxY q - quadMinY q ≠ 0 := by omega
    have h5 : ¬¬((7 : ℚ)/10 ≤
        ((quadMaxX q - quadMinX q : ℤ) : ℚ) / ((quadMaxY q - quadMinY q : ℤ) : ℚ) ∧
        ((quadMaxX q - quadMinX q : ℤ) : ℚ) / ((quadMaxY q - quadMinY q : ℤ) : ℚ) ≤ 13/10) :=
      not_not_intro ⟨ha1, ha2⟩
    have h6 : ¬(minEdgeSq q ≤ 0 ∨ 25 * minEdgeSq q < 16 * maxEdgeSq q) := by omega
    rw [if_neg h1, if_neg h2, if_neg h3, if_neg h4, if_neg hh0, if_neg h5, if_neg h6]

/-- C6: the QR filter keeps exactly the candidates satisfying all five
spec rules, in their original relative order; in particular a quad whose
edge-length ratio exceeds 1.25 (`16·max² > 25·min²` on squared lengths)
is always rejected regardless of its decoded text, and a quad with either
axis-aligned span below 48 px is always rejected. -/
theorem filter_qr_candidates_spec (cands : List (String × Quad))
    (imgH imgW : ℕ) :
    filterQRCandidates cands imgH imgW =
      cands.filter (fun c => decide (specAcceptQR imgH imgW c.1 c.2)) ∧
    (∀ (text : String) (q : Quad), 25 * minEdgeSq q < 16 * maxEdgeSq q →
      acceptQR imgH imgW text q = false) ∧
    (∀ (text : String) (q : Quad),
      quadMaxX q - quadMinX q < 48 ∨ quadMaxY q - quadMinY q < 48 →
      acceptQR imgH imgW text q = false) := by
  refine ⟨?_, ?_, ?_⟩
  · unfold filterQRCandidates
    by_cases hc : cands = []
    · rw [if_pos hc, hc, List.filter_nil]
    · rw [if_neg hc]
      apply List.filter_congr
      intro c hcmem
      by_cases hb : acceptQR imgH imgW c.1 c.2 = true
      · have hs := (acceptQR_iff imgH imgW c.1 c.2).mp hb
        rw [hb, decide_eq_true hs]
      · have hs : ¬ specAcceptQR imgH imgW c.1 c.2 :=
          fun h => hb ((acceptQR_iff imgH imgW c.1 c.2).mpr h)
        rw [Bool.eq_false_iff.mpr hb, decide_eq_false hs]
  · intro text q hratio
    by_cases hb : acceptQR imgH imgW text q = true
    · exfalso
      obtain ⟨-, -, -, -, -, -, -, -, hedge⟩ :=
        (acceptQR_iff imgH imgW text q).mp hb
      omega
    · exact Bool.eq_false_iff.mpr hb
  · intro text q hspan
    by_cases hb : acceptQR imgH imgW text q = true
    · exfalso
      obtain ⟨-, hw, hh, -⟩ := (acceptQR_iff imgH imgW text q).mp hb
      omega
    · exact Bool.eq_false_iff.mpr hb

/-- Concrete QR candidates: a plausible 100×100 quad with long decoded
text, and a skewed quad that fails the edge-ratio rule. -/
def qrCands : List (String × Quad) :=
  [("https://example.test/qr", ⟨(0, 0), (100, 0), (100, 100), (0, 100)⟩),
   ("https://example.test/qr", ⟨(0, 0), (200, 0), (200, 100), (0, 100)⟩)]

/-- Witness for `filter_qr_candidates_spec` on `qrCands` in a 1000×1000
image. -/
theorem filter_qr_candidates_spec_witness :
    filterQRCandidates qrCands 1000 1000 =
      qrCands.filter (fun c => decide (specAcceptQR 1000 1000 c.1 c.2)) :=
  (filter_qr_candidates_spec qrCands 1000 1000).1

/-! ### Engine arbitration — `QRDetector.detect` and
`qr_detect.py::merge_results` -/

/-- Building a `QRDetection` from one filtered `(text, quad)` pair
(`QRDetection(text=t, polygon=box) for t, box in zip(...)`). -/
def mkQRDetection (c : String × Quad) : QRDetectionRec := ⟨c.1, c.2⟩

/-- `QRDetector.detect`: run the primary (OpenCV) engine through the
filter; if it decoded anything, return its detections, otherwise fall
back to the pyzbar engine (also filtered).  The raw engine readings are
inputs here — the engines themselves are external collaborators. -/
def qrDetect (primaryRaw fallbackRaw : List (String × Quad))
    (imgH imgW : ℕ) : List QRDetectionRec :=
  let cv := filterQRCandidates primaryRaw imgH imgW
  if cv ≠ [] then cv.map mkQRDetection
  else (filterQRCandidates fallbackRaw imgH imgW).map mkQRDetection

/-- `merge_results` from `qr_detect.py`: return the primary engine's
(data, boxes) pair when its data list is non-empty, else the fallback's. -/
def mergeResults (primary fallback : List String × List Quad) :
    List String × List Quad :=
  if primary.1 ≠ [] then primary else fallback

/-- Let-free unfolding of `qrDetect`. -/
theorem qrDetect_eq (p f : List (String × Quad)) (imgH imgW : ℕ) :
    qrDetect p f imgH imgW =
      (if filterQRCandidates p imgH imgW ≠ [] then
        (filterQRCandidates p imgH imgW).map mkQRDetection
      else (filterQRCandidates f imgH imgW).map mkQRDetection) := rfl

/-- C7: if the primary engine yields any accepted candidate its results
are returned exclusively, the fallback's results are returned only when
the primary yields none, and the returned list is always exactly one
engine's filtered list — never a cross-engine merge; `merge_results`
behaves identically on (data, boxes) pairs. -/
theorem qr_detect_arbitration (p f : List (String × Quad)) (imgH imgW : ℕ) :
    (filterQRCandidates p imgH imgW ≠ [] →
      qrDetect p f imgH imgW = (filterQRCandidates p imgH imgW).map mkQRDetection) ∧
    (filterQRCandidates p imgH imgW = [] →
      qrDetect p f imgH imgW = (filterQRCandidates f imgH imgW).map mkQRDetection) ∧
    (qrDetect p f imgH imgW = (filterQRCandidates p imgH imgW).map mkQRDetection ∨
      qrDetect p f imgH imgW = (filterQRCandidates f imgH imgW).map mkQRDetection) ∧
    (∀ pr fb : List String × List Quad,
      mergeResults pr fb = if pr.1 = [] then fb else pr) := by
  refine ⟨?_, ?_, ?_, ?_⟩
  · intro hne
    rw [qrDetect_eq, if_pos hne]
  · intro hempty
    rw [qrDetect_eq, if_neg (not_not_intro hempty)]
  · rw [qrDetect_eq]
    by_cases hne : filterQRCandidates p imgH imgW ≠ []
    · rw [if_pos hne]
      exact Or.inl rfl
    · rw [if_neg hne]
      exact Or.inr rfl
  · intro pr fb
    unfold mergeResults
    by_cases hp : pr.1 = []
    · rw [if_neg (not_not_intro hp), if_pos hp]
    · rw [if_pos hp, if_neg hp]

/-- Witness for `qr_detect_arbitration`: concrete engine outputs. -/
theorem qr_detect_arbitration_witness :
    qrDetect qrCands [] 1000 1000 =
        (filterQRCandidates qrCands 1000 1000).map mkQRDetection ∨
      qrDetect qrCands [] 1000 1000 =
        (filterQRCandidates ([] : List (String × Quad)) 1000 1000).map mkQRDetection :=
  (qr_detect_arbitration qrCands [] 1000 1000).2.2.1

/-! ### Greedy evaluation matcher — `evaluate_selected.py` -/

/-- `BoundingBox` from `evaluate_selected.py` (float fields; confidence
defaults to 1.0 at construction sites that omit it). -/
structure EvalBox where
  x1 : ℚ
  y1 : ℚ
  x2 : ℚ
  y2 : ℚ
  confidence : ℚ
deriving DecidableEq, Repr

/-- `compute_iou`: clamped intersection over union, `0` on empty overlap
or zero union. -/
def computeIou (a b : EvalBox) : ℚ :=
  let interW := max 0 (min a.x2 b.x2 - max a.x1 b.x1)
  let interH := max 0 (min a.y2 b.y2 - max a.y1 b.y1)
  if interW = 0 ∨ interH = 0 then 0
  else
    let interArea := interW * interH
    let areaA := max 0 ((a.x2 - a.x1) * (a.y2 - a.y1))
    let areaB := max 0 ((b.x2 - b.x1) * (b.y2 - b.y1))
    let union := areaA + areaB - interArea
    if union = 0 then 0 else interArea / union

/-- The `for idx, gt in enumerate(gt_boxes)` scan of `match_predictions`:
`i` is the index of the head of the remaining list, `best` the running
`(best_iou, best_idx)` pair (initially `(0.0, -1)`, with `-1` as `none`);
already-matched ground-truth indices are skipped, and the running best is
replaced only on strict improvement. -/
def bestMatchAux (pred : EvalBox) (matched : Finset ℕ) :
    List EvalBox → ℕ → ℚ × Option ℕ → ℚ × Option ℕ
  | [], _, best => best
  | g :: rest, i, best =>
      bestMatchAux pred matched rest (i + 1)
        (if i ∈ matched then best
         else if best.1 < computeIou g pred then (computeIou g pred, some i)
         else best)

/-- The inner scan of `match_predictions` over the whole ground-truth
list. -/
def bestMatch (gts : List EvalBox) (matched : Finset ℕ) (pred : EvalBox) :
    ℚ × Option ℕ :=
  bestMatchAux pred matched gts 0 (0, none)

/-- One iteration of `match_predictions`' outer loop: state is
`(matched_gt, tp, fp)`; a prediction is a true positive when its best
IoU reaches the threshold and some unmatched ground-truth box was found
(`best_idx >= 0`), otherwise a false positive. -/
def matchStep (gts : List EvalBox) (t : ℚ) (st : Finset ℕ × ℕ × ℕ)
    (pred : EvalBox) : Finset ℕ × ℕ × ℕ :=
  match (bestMatch gts st.1 pred).2 with
  | some idx =>
      if t ≤ (bestMatch gts st.1 pred).1 then
        (insert idx st.1, st.2.1 + 1, st.2.2)
      else (st.1, st.2.1, st.2.2 + 1)
  | none => (st.1, st.2.1, st.2.2 + 1)

/-- `sorted(pred_boxes, key=lambda b: b.confidence, reverse=True)`:
stable descending sort by confidence. -/
def sortPredsDesc (preds : List EvalBox) : List EvalBox :=
  preds.mergeSort fun a b => b.confidence ≤ a.confidence

/-- `match_predictions`: returns `(tp, fp, fn)` with
`fn = len(gt_boxes) - len(matched_gt)`. -/
def matchPredictions (gts preds : List EvalBox) (t : ℚ) : ℕ × ℕ × ℕ :=
  if gts = [] ∧ preds = [] then (0, 0, 0)
  else
    let final := (sortPredsDesc preds).foldl (matchStep gts t) (∅, 0, 0)
    (final.2.1, final.2.2, gts.length - final.1.card)

theorem bestMatchAux_inv (pred : EvalBox) (matched : Finset ℕ) :
    ∀ (l : List EvalBox) (i : ℕ) (best : ℚ × Option ℕ),
      (∀ j, best.2 = some j → j ∉ matched ∧ j < i) →
      ∀ j, (bestMatchAux pred matched l i best).2 = some j →
        j ∉ matched ∧ j < i + l.length := by
  intro l
  induction l with
  | nil =>
      intro i best hbest j hj
      have := hbest j hj
      exact ⟨this.1, by simpa using this.2⟩
  | cons g rest ih =>
      intro i best hbest j hj
      have hstep : ∀ j',
          (if i ∈ matched then best
           else if best.1 < computeIou g pred then (computeIou g pred, some i)
           else best).2 = some j' → j' ∉ matched ∧ j' < i + 1 := by
        intro j' hj'
        by_cases hm : i ∈ matched
        · rw [if_pos hm] at hj'
          have := hbest j' hj'
          exact ⟨this.1, by omega⟩
        · rw [if_neg hm] at hj'
          by_cases himp : best.1 < computeIou g pred
          · rw [if_pos himp] at hj'
            simp only [Option.some.injEq] at hj'
            subst hj'
            exact ⟨hm, by omega⟩
          · rw [if_neg himp] at hj'
            have := hbest j' hj'
            exact ⟨this.1, by omega⟩
      have := ih (i + 1) _ hstep j (by simpa [bestMatchAux] using hj)
      refine ⟨this.1, ?_⟩
      simp only [List.length_cons]
      omega

theorem bestMatchAux_ge_init (pred : EvalBox) (matched : Finset ℕ) :
    ∀ (l : List EvalBox) (i : ℕ) (best : ℚ × Option ℕ),
      best.1 ≤ (bestMatchAux pred matched l i best).1 := by
  intro l
  induction l with
  | nil =>
      intro i best
      exact le_refl _
  | cons g rest ih =>
      intro i best
      refine le_trans ?_ (ih (i + 1)
        (if i ∈ matched then best
         else if best.1 < computeIou g pred then (computeIou g pred, some i)
         else best))
      by_cases hm : i ∈ matched
      · rw [if_pos hm]
      · rw [if_neg hm]
        by_cases himp : best.1 < computeIou g pred
        · rw [if_pos himp]
          exact le_of_lt himp
        · rw [if_neg himp]

theorem bestMatchAux_ge_elem (pred : EvalBox) (matched : Finset ℕ) :
    ∀ (l : List EvalBox) (i : ℕ) (best : ℚ × Option ℕ) (j : Fin l.length),
      (i + (j : ℕ)) ∉ matched →
      computeIou (l.get j) pred ≤ (bestMatchAux pred matched l i best).1 := by
  intro l
  induction l with
  | nil =>
      intro i best j
      exact absurd j.2 (by simp)
  | cons g rest ih =>
      intro i best j hj
      rcases j with ⟨jv, hjlt⟩
      cases jv with
      | zero =>
          simp only [Nat.add_zero] at hj
          show computeIou g pred ≤ (bestMatchAux pred matched (g :: rest) i best).1
          have hstep : computeIou g pred ≤
              (if i ∈ matched then best
               else if best.1 < computeIou g pred then (computeIou g pred, some i)
               else best).1 := by
            rw [if_neg hj]
            by_cases himp : best.1 < computeIou g pred
            · rw [if_pos himp]
            · rw [if_neg himp]
              exact not_lt.mp himp
          exact le_trans hstep (bestMatchAux_ge_init pred matched rest (i + 1) _)
      | succ k =>
          have hk : (i + 1) + k ∉ matched := by
            have h2 : i + (k + 1) = (i + 1) + k := by omega
            simpa [h2] using hj
          exact ih (i + 1)
            (if i ∈ matched then best
             else if best.1 < computeIou g pred then (computeIou g pred, some i)
             else best)
            ⟨k, Nat.lt_of_succ_lt_succ (by simpa using hjlt)⟩ hk

theorem bestMatch_some (gts : List EvalBox) (matched : Finset ℕ)
    (pred : EvalBox) (j : ℕ) (hj : (bestMatch gts matched pred).2 = some j) :
    j ∉ matched ∧ j < gts.length := by
  have := bestMatchAux_inv pred matched gts 0 (0, none)
    (fun j' hj' => absurd hj' (by simp)) j hj
  simpa using this

theorem bestMatch_is_best (gts : List EvalBox) (matched : Finset ℕ)
    (pred : EvalBox) (j : Fin gts.length) (hj : (j : ℕ) ∉ matched) :
    computeIou (gts.get j) pred ≤ (bestMatch gts matched pred).1 :=
  bestMatchAux_ge_elem pred matched gts 0 (0, none) j (by simpa using hj)

theorem matchLoop_inv (gts : List EvalBox) (t : ℚ) :
    ∀ (l : List EvalBox) (st : Finset ℕ × ℕ × ℕ),
      st.1 ⊆ Finset.range gts.length →
      (l.foldl (matchStep gts t) st).2.1 + (l.foldl (matchStep gts t) st).2.2 =
        st.2.1 + st.2.2 + l.length ∧
      (l.foldl (matchStep gts t) st).1.card + st.2.1 =
        st.1.card + (l.foldl (matchStep gts t) st).2.1 ∧
      (l.foldl (matchStep gts t) st).1 ⊆ Finset.range gts.length := by
  intro l
  induction l with
  | nil =>
      intro st hst
      exact ⟨by simp, by simp, hst⟩
  | cons pred rest ih =>
      intro st hst
      have hstep : (matchStep gts t st pred).1 ⊆ Finset.range gts.length ∧
          (matchStep gts t st pred).2.1 + (matchStep gts t st pred).2.2 =
            st.2.1 + st.2.2 + 1 ∧
          (matchStep gts t st pred).1.card + st.2.1 =
            st.1.card + (matchStep gts t st pred).2.1 := by
        unfold matchStep
        split
        · rename_i idx hidx
          have hmem := bestMatch_some gts st.1 pred idx hidx
          by_cases hthr : t ≤ (bestMatch gts st.1 pred).1
          · rw [if_pos hthr]
            refine ⟨?_, ?_, ?_⟩
            · intro x hx
              rcases Finset.mem_insert.mp hx with rfl | hx2
              · exact Finset.mem_range.mpr hmem.2
              · exact hst hx2
            · show st.2.1 + 1 + st.2.2 = st.2.1 + st.2.2 + 1
              omega
            · show (insert idx st.1).card + st.2.1 = st.1.card + (st.2.1 + 1)
              rw [Finset.card_insert_of_not_mem hmem.1]
              omega
          · rw [if_neg hthr]
            refine ⟨hst, ?_, ?_⟩
            · show st.2.1 + (st.2.2 + 1) = st.2.1 + st.2.2 + 1
              omega
            · show st.1.card + st.2.1 = st.1.card + st.2.1
              rfl
        · refine ⟨hst, ?_, ?_⟩
          · show st.2.1 + (st.2.2 + 1) = st.2.1 + st.2.2 + 1
            omega
          · show st.1.card + st.2.1 = st.1.card + st.2.1
            rfl
      have hrest := ih (matchStep gts t st pred) hstep.1
      simp only [List.foldl_cons, List.length_cons]
      refine ⟨by omega, by omega, hrest.2.2⟩

/-- C4: the greedy matcher's counts always satisfy `TP + FN = |G|` and
`TP + FP = |P|`; the predictions are processed as a descending-confidence
permutation of the input (`sortPredsDesc`), and within each step the
scanned best IoU dominates the IoU of every still-unmatched ground-truth
box, so each prediction claims its best-IoU unmatched ground-truth box
before any lower-confidence prediction is considered. -/
theorem match_predictions_spec (gts preds : List EvalBox) (t : ℚ) :
    ((matchPredictions gts preds t).1 + (matchPredictions gts preds t).2.2 =
      gts.length ∧
    (matchPredictions gts preds t).1 + (matchPredictions gts preds t).2.1 =
      preds.length) ∧
    List.Sorted (fun a b : EvalBox => b.confidence ≤ a.confidence)
      (sortPredsDesc preds) ∧
    (sortPredsDesc preds).Perm preds ∧
    (∀ (matched : Finset ℕ) (pred : EvalBox) (j : Fin gts.length),
      (j : ℕ) ∉ matched →
      computeIou (gts.get j) pred ≤ (bestMatch gts matched pred).1) := by
  have hperm : (sortPredsDesc preds).Perm preds := List.mergeSort_perm preds _
  have hsorted : List.Sorted (fun a b : EvalBox => b.confidence ≤ a.confidence)
      (sortPredsDesc preds) := by
    have h := @List.sorted_mergeSort EvalBox
      (fun a b : EvalBox => decide (b.confidence ≤ a.confidence))
      (fun a b c h1 h2 => by
        simp only [decide_eq_true_eq] at *
        exact le_trans h2 h1)
      (fun a b => by
        simp only [Bool.or_eq_true, decide_eq_true_eq]
        exact le_total b.confidence a.confidence)
      preds
    exact List.Pairwise.imp (fun hab => by simpa using hab) h
  refine ⟨?_, hsorted, hperm, fun matched pred j hj =>
    bestMatch_is_best gts matched pred j hj⟩
  unfold matchPredictions
  by_cases hempty : gts = [] ∧ preds = []
  · rw [if_pos hempty]
    simp [hempty.1, hempty.2]
  · rw [if_neg hempty]
    have hlen : (sortPredsDesc preds).length = preds.length := hperm.length_eq
    obtain ⟨hcount, hcard, hsub⟩ :=
      matchLoop_inv gts t (sortPredsDesc preds) (∅, 0, 0) (by simp)
    have hcount2 : ((sortPredsDesc preds).foldl (matchStep gts t) (∅, 0, 0)).2.1 +
        ((sortPredsDesc preds).foldl (matchStep gts t) (∅, 0, 0)).2.2 =
        0 + 0 + (sortPredsDesc preds).length := hcount
    have hcard2 : ((sortPredsDesc preds).foldl (matchStep gts t) (∅, 0, 0)).1.card +
        0 = 0 + ((sortPredsDesc preds).foldl (matchStep gts t) (∅, 0, 0)).2.1 := hcard
    have hcardle :
        ((sortPredsDesc preds).foldl (matchStep gts t) (∅, 0, 0)).1.card ≤
          gts.length := by
      simpa using Finset.card_le_card hsub
    constructor
    · show ((sortPredsDesc preds).foldl (matchStep gts t) (∅, 0, 0)).2.1 +
        (gts.length -
          ((sortPredsDesc preds).foldl (matchStep gts t) (∅, 0, 0)).1.card) =
        gts.length
      omega
    · show ((sortPredsDesc preds).foldl (matchStep gts t) (∅, 0, 0)).2.1 +
        ((sortPredsDesc preds).foldl (matchStep gts t) (∅, 0, 0)).2.2 =
        preds.length
      omega

/-- Witness for `match_predictions_spec`: spec scenario 1 — one ground
truth box and one identical prediction at confidence 0.9, threshold 0.5.
-/
theorem match_predictions_spec_witness :
    (matchPredictions [⟨10, 10, 110, 110, 1⟩] [⟨10, 10, 110, 110, 9/10⟩]
        (1/2)).1 +
      (matchPredictions [⟨10, 10, 110, 110, 1⟩] [⟨10, 10, 110, 110, 9/10⟩]
        (1/2)).2.2 =
      ([⟨10, 10, 110, 110, 1⟩] : List EvalBox).length ∧
    (matchPredictions [⟨10, 10, 110, 110, 1⟩] [⟨10, 10, 110, 110, 9/10⟩]
        (1/2)).1 +
      (matchPredictions [⟨10, 10, 110, 110, 1⟩] [⟨10, 10, 110, 110, 9/10⟩]
        (1/2)).2.1 =
      ([⟨10, 10, 110, 110, 9/10⟩] : List EvalBox).length :=
  (match_predictions_spec [⟨10, 10, 110, 110, 1⟩] [⟨10, 10, 110, 110, 9/10⟩]
    (1/2)).1
